import Mathlib

/-!
A shallow embedding of the feed-to-event-instance pipeline of
`src/src/app.jsx` (spabolu/homecalendar).

Modelling conventions:
* iCal time values (`ICAL.Time`) are modelled as `Nat` instants; `compare`
  on times becomes the order on `Nat`.
* JS `undefined`/`null` string values are `Option String`; the JS `||`
  operator on strings (empty string is falsy) is `jsOrS`/`jsOrOpt`.
* The string form of a time value (template interpolation of `next` in
  `` `${ev.uid}-${next}` ``) is modelled by `natStr`, a decimal rendering
  of the instant; the real `ICAL.Time.toString` is likewise injective on
  time values.
* The recurrence iterator `ev.iterator()` is a stream `gen : Nat → Option Nat`
  of instants (`none` = iterator exhausted).
* `ev.getOccurrenceDetails(next)` for an `ICAL.Event` wrapped around a lone
  VEVENT (as `app.jsx` does: `new ICAL.Event(ve)` with no exception map)
  yields an occurrence whose `startDate` is the iterated instant itself;
  the remaining per-occurrence fields are modelled as functions of the
  instant on the series record.
* Member names from the configuration are treated as regex-literal strings
  (no metacharacters), and case folding is `Char.toLower` on both sides,
  matching the `/i` flag of `TITLE_PATTERN`.
-/

namespace HomeCalendar

/-- Constant `MAX_RECURRING_EVENTS` from `app.jsx` line 25. -/
def MAX_RECURRING_EVENTS : Nat := 1000

/-- Model of `FAMILY_CONFIG`: the member directory built from `VITE_FAMILY_CONFIG`.
`members` is the (name, color) association in configuration key order;
`familyColor` is `FAMILY_CONFIG.Family.color`, the reserved default
entry's color (per the data model the directory always carries a
`"Family"` entry; without it `getFamilyMemberColor` would crash). -/
structure MemberDirectory where
  members : List (String × String)
  familyColor : String
  deriving DecidableEq

/-- JS `a || d` for a possibly-undefined string `a` (empty string is falsy). -/
def jsOrS : Option String → String → String
  | some s, d => if s = "" then d else s
  | none, d => d

/-- JS `a || b` where both operands are possibly-undefined strings. -/
def jsOrOpt : Option String → Option String → Option String
  | some s, b => if s = "" then b else some s
  | none, b => b

/-- JS template interpolation of a possibly-null string (`null` prints as "null"). -/
def jsStr : Option String → String
  | some s => s
  | none => "null"

/-- Helper `getFamilyMemberColor` (app.jsx line 47):
`FAMILY_CONFIG[name]?.color || FAMILY_CONFIG.Family.color`. -/
def getFamilyMemberColor (dir : MemberDirectory) (name : String) : String :=
  match dir.members.lookup name with
  | some c => if c = "" then dir.familyColor else c
  | none => dir.familyColor

/-- Names `familyMemberNames` (app.jsx line 41): configured names except `"Family"`. -/
def familyMemberNames (dir : MemberDirectory) : List String :=
  (dir.members.map Prod.fst).filter (fun n => n ≠ "Family")

/-- The alternation list of `TITLE_PATTERN` (app.jsx line 44):
`names.join("|")` of an empty list yields the empty alternation `^():\s*`,
which behaves like the single empty name. -/
def patternNames (names : List String) : List String :=
  if names.isEmpty then [""] else names

/-- Character-level lowercasing, the model of `toLowerCase` / the `/i` flag. -/
def lowerStr (s : String) : String :=
  String.mk (s.data.map Char.toLower)

/-- Prefix test on the underlying character lists. -/
def isPrefixStr (p s : String) : Bool :=
  p.data.isPrefixOf s.data

/-- Drop the first `n` characters (JS `slice`, `replace` remainder). -/
def strDrop (s : String) (n : Nat) : String :=
  String.mk (s.data.drop n)

/-- Take the first `n` characters (the matched capture group text). -/
def strTake (s : String) (n : Nat) : String :=
  String.mk (s.data.take n)

/-- JS `String.prototype.trim`: strip whitespace from both ends. -/
def jsTrim (s : String) : String :=
  String.mk (((s.data.dropWhile Char.isWhitespace).reverse.dropWhile
    Char.isWhitespace).reverse)

/-- Which alternative of `TITLE_PATTERN` matches at the start of `title`:
the first configured name `n` (in alternation order) such that `n`
followed by `:` is a case-insensitive prefix of the title. -/
def findPrefixMatch (names : List String) (title : String) : Option String :=
  (patternNames names).find? (fun n => isPrefixStr (lowerStr (n ++ ":")) (lowerStr title))

/-- JS `s.charAt(0).toUpperCase() + s.slice(1).toLowerCase()` (app.jsx lines 107-109). -/
def capitalize (s : String) : String :=
  match s.data with
  | [] => ""
  | c :: rest => String.mk (c.toUpper :: rest.map Char.toLower)

/-- JS `email?.replace(/^mailto:/i, "")` on a defined email (app.jsx line 92). -/
def stripMailto (s : String) : String :=
  if isPrefixStr "mailto:" (lowerStr s) then strDrop s 7 else s

/-- The organizer data carried by a raw VEVENT, as seen by
`extractOrganizerInfo`: no organizer property, a readable property
(first value = possibly-undefined email, `cn` parameter), or a property
whose reading throws (the `catch` path of app.jsx lines 125-133). -/
inductive OrganizerProp where
  | absent
  | present (email : Option String) (cn : Option String)
  | malformed
  deriving DecidableEq

/-- The `OrganizerAttribution` record returned by `extractOrganizerInfo`;
`source` holds the literal JS strings `"organizer_property"`,
`"title_pattern"` or `"default"`. -/
structure Attribution where
  name : String
  email : Option String
  source : String
  color : String
  deriving DecidableEq

/-- The attribution built in the default and catch branches of
`extractOrganizerInfo` (app.jsx lines 118-124 and 127-132). -/
def defaultAttribution (dir : MemberDirectory) : Attribution :=
  { name := "Family", email := none, source := "default",
    color := getFamilyMemberColor dir "Family" }

/-- Resolver `extractOrganizerInfo` (app.jsx lines 86-134), as a function of the
event's organizer data and its `summary`. -/
def extractOrganizerInfo (dir : MemberDirectory) (org : OrganizerProp)
    (summary : Option String) : Attribution :=
  match org with
  | .malformed => defaultAttribution dir
  | .present email cn =>
      let cleanEmail := email.map stripMailto
      let name := jsOrS cn (jsOrS cleanEmail "Family")
      { name := name, email := cleanEmail, source := "organizer_property",
        color := getFamilyMemberColor dir name }
  | .absent =>
      let title := jsOrS summary ""
      match findPrefixMatch (familyMemberNames dir) title with
      | some n =>
          let name := capitalize (strTake title n.length)
          { name := name, email := none, source := "title_pattern",
            color := getFamilyMemberColor dir name }
      | none => defaultAttribution dir

/-- Model of `title.replace(TITLE_PATTERN, "")` (app.jsx line 143): the full match is
the member name, the colon, and the maximal whitespace run after it. -/
def replaceTitlePattern (names : List String) (title : String) : String :=
  match findPrefixMatch names title with
  | some n => String.mk ((title.data.drop (n.length + 1)).dropWhile Char.isWhitespace)
  | none => title

/-- The display title computed by `createCalendarEvent` (app.jsx lines 141-144):
`rawTitle || "untitled"`, with the title pattern stripped and the result
trimmed when the organizer was resolved from the title. -/
def displayTitle (dir : MemberDirectory) (org : Attribution)
    (rawTitle : Option String) : String :=
  let title := jsOrS rawTitle "untitled"
  if org.source = "title_pattern" then jsTrim (replaceTitlePattern (familyMemberNames dir) title)
  else title

/-- The `eventData` argument of `createCalendarEvent` (app.jsx line 138). -/
structure EventData where
  id : Option String
  title : Option String
  start : Option Nat
  end_ : Option Nat
  allDay : Bool
  description : Option String
  deriving DecidableEq

/-- The published `EventInstance` record (return value of
`createCalendarEvent`, app.jsx lines 146-159); `extendedProps` is inlined
as the `organizer` and `description` fields. -/
structure CalEvent where
  id : Option String
  title : String
  start : Option Nat
  end_ : Option Nat
  allDay : Bool
  backgroundColor : String
  borderColor : String
  textColor : String
  organizer : Attribution
  description : String
  deriving DecidableEq

/-- Normalizer `createCalendarEvent` (app.jsx lines 137-160). -/
def createCalendarEvent (dir : MemberDirectory) (d : EventData)
    (org : Attribution) : CalEvent :=
  { id := d.id
    title := displayTitle dir org d.title
    start := d.start
    end_ := d.end_
    allDay := d.allDay
    backgroundColor := org.color
    borderColor := org.color
    textColor := "#fff"
    organizer := org
    description := jsOrS d.description "" }

/-! Decimal rendering of an instant, modelling the string form of an
`ICAL.Time` in the recurring identifier `` `${ev.uid}-${next}` ``
(app.jsx line 231).  Kernel-computable (structural fuel recursion) with a
provable round trip, hence injective. -/

/-- Big-endian decimal digits of `n`; `fuel` bounds the recursion depth. -/
def toDigitsGo : Nat → Nat → List Nat
  | 0, _ => []
  | fuel + 1, n =>
      if n < 10 then [n] else toDigitsGo fuel (n / 10) ++ [n % 10]

/-- Reconstruct the value of a big-endian digit list. -/
def ofDigitsList (l : List Nat) : Nat :=
  l.foldl (fun acc d => acc * 10 + d) 0

/-- Decimal string of an instant. -/
def natStr (n : Nat) : String :=
  String.mk ((toDigitsGo (n + 1) n).map Nat.digitChar)

/-- A recurring VEVENT as consumed by the expansion loop
(app.jsx lines 216-242): series-level fields plus the iterator stream
`gen` and the per-occurrence details returned by `getOccurrenceDetails`
(whose `startDate` is the iterated instant itself, see module docstring). -/
structure RecurringEvent where
  uid : Option String
  summary : Option String
  description : Option String
  organizer : OrganizerProp
  gen : Nat → Option Nat
  occIsDate : Nat → Bool
  occEnd : Nat → Option Nat
  occSummary : Nat → Option String
  occDescription : Nat → Option String

/-- The event pushed for one recurring occurrence at instant `t`
(app.jsx lines 228-240). -/
def mkRecurringEvent (dir : MemberDirectory) (r : RecurringEvent) (t : Nat) : CalEvent :=
  createCalendarEvent dir
    { id := some (jsStr r.uid ++ "-" ++ natStr t)
      title := r.summary
      start := some t
      end_ := r.occEnd t
      allDay := r.occIsDate t
      description := r.description }
    (extractOrganizerInfo dir r.organizer r.summary)

/-- The `while ((next = iter.next()) && count < MAX_RECURRING_EVENTS)` loop
(app.jsx lines 222-242).  `fuel = MAX_RECURRING_EVENTS - count`; the guard
`count < MAX_RECURRING_EVENTS` is `fuel > 0`, and `count` increments on
every iteration that does not break, emitted or skipped alike. -/
def expandGo (dir : MemberDirectory) (startR endR : Nat) (r : RecurringEvent) :
    Nat → Nat → List CalEvent
  | _, 0 => []
  | idx, fuel + 1 =>
      match r.gen idx with
      | none => []
      | some next =>
          if endR < next then []
          else if startR ≤ next then
            mkRecurringEvent dir r next :: expandGo dir startR endR r (idx + 1) fuel
          else expandGo dir startR endR r (idx + 1) fuel

/-- Expansion of one recurring series within `[startR, endR]`
(app.jsx lines 216-242). -/
def expandRecurring (dir : MemberDirectory) (startR endR : Nat)
    (r : RecurringEvent) : List CalEvent :=
  expandGo dir startR endR r 0 MAX_RECURRING_EVENTS

/-- A non-recurring VEVENT as consumed by the single-event branch
(app.jsx lines 243-258). -/
structure SingleEvent where
  uid : Option String
  summary : Option String
  description : Option String
  organizer : OrganizerProp
  startDate : Option Nat
  startIsDate : Bool
  endDate : Option Nat

/-- The event pushed for a non-recurring VEVENT (app.jsx lines 245-257). -/
def mkSingleEvent (dir : MemberDirectory) (s : SingleEvent) (t : Nat) : CalEvent :=
  createCalendarEvent dir
    { id := jsOrOpt s.uid s.summary
      title := s.summary
      start := some t
      end_ := s.endDate
      allDay := s.startIsDate
      description := s.description }
    (extractOrganizerInfo dir s.organizer s.summary)

/-- Branch `else if (ev.startDate)` (app.jsx line 243): one event when the start
instant is defined, none otherwise. -/
def processSingle (dir : MemberDirectory) (s : SingleEvent) : List CalEvent :=
  match s.startDate with
  | some t => [mkSingleEvent dir s t]
  | none => []

/-- One parsed VEVENT: `ev.isRecurring()` selects the branch. -/
inductive VEvent where
  | recurring (r : RecurringEvent)
  | single (s : SingleEvent)

/-- The `vevents.forEach` body (app.jsx lines 212-259). -/
def processVEvent (dir : MemberDirectory) (startR endR : Nat) :
    VEvent → List CalEvent
  | .recurring r => expandRecurring dir startR endR r
  | .single s => processSingle dir s

/-- The pure core of `fetchCalendarEvents` (app.jsx lines 205-261): expand
every parsed VEVENT in feed order, then
`calEvents.filter((e) => e.start && e.title)` — a Date object is always
truthy, so the start check is `isSome`, and the title check drops the
empty string.  No sort is applied before `setEvents`. -/
def fetchCalendarEvents (dir : MemberDirectory) (startR endR : Nat)
    (vevents : List VEvent) : List CalEvent :=
  (vevents.flatMap (processVEvent dir startR endR)).filter
    (fun e => e.start.isSome && decide (e.title ≠ ""))

/-- The refresh-relevant component state of `App`
(app.jsx lines 164-166). -/
structure AppState where
  events : List CalEvent
  loading : Bool
  error : Option String
  deriving DecidableEq

/-- Outcome of one completed refresh run: the pipeline either produced a
new event list or threw at some stage with a message. -/
inductive FetchResult where
  | ok (events : List CalEvent)
  | fail (msg : String)

/-- Net state change of one completed `fetchCalendarEvents` run
(app.jsx lines 185-268): `setLoading(true); setError(null)` on entry, then
on success `setEvents(...)`, on failure `setError(err.message)` with
`events` untouched, and `setLoading(false)` in `finally`. -/
def applyFetch (s : AppState) : FetchResult → AppState
  | .ok evs => { events := evs, loading := false, error := none }
  | .fail m => { events := s.events, loading := false, error := some m }

/-- The full-page error screen (app.jsx lines 372-387): rendered exactly
when an error is recorded and the published set is empty; it shows the
error message and a Retry button wired to `fetchCalendarEvents`. -/
structure ErrorScreen where
  message : String
  retry : Bool
  deriving DecidableEq

/-- Condition `if (error && events.length === 0)` (app.jsx line 372). -/
def renderErrorScreen (s : AppState) : Option ErrorScreen :=
  match s.error with
  | some m => if s.events.isEmpty then some { message := m, retry := true } else none
  | none => none

/-- What the expansion loop emits for iterator position `i`: the occurrence
event when the instant exists and is not before `startR`, nothing otherwise.
Used to characterize the loop output as a `filterMap` over positions. -/
def emitAt (dir : MemberDirectory) (startR : Nat) (r : RecurringEvent)
    (i : Nat) : Option CalEvent :=
  match r.gen i with
  | some t => if startR ≤ t then some (mkRecurringEvent dir r t) else none
  | none => none

/-- Whether iterator position `i` yields an instant at or after `startR`
(the emission condition of the loop body, app.jsx line 226). -/
def inWindowB (r : RecurringEvent) (startR : Nat) (i : Nat) : Bool :=
  match r.gen i with
  | some t => decide (startR ≤ t)
  | none => false

/-! Concrete inputs used by witnesses and counterexamples. -/

/-- A two-member directory: one configured member plus the reserved default. -/
def demoDir : MemberDirectory :=
  { members := [("Mom", "#b33"), ("Family", "#777")], familyColor := "#777" }

/-- A finite iterator stream: instants 5, 6, 7. -/
def demoGen : Nat → Option Nat := fun i => if i < 3 then some (5 + i) else none

/-- A concrete recurring series over `demoGen`. -/
def demoRec : RecurringEvent :=
  { uid := some "series-1", summary := some "Trash day",
    description := some "weekly", organizer := .absent, gen := demoGen,
    occIsDate := fun _ => false, occEnd := fun t => some (t + 1),
    occSummary := fun _ => none, occDescription := fun _ => none }

/-- An iterator stream with 1000 instants before the window and one inside:
instants 0,…,1000. -/
def capGen : Nat → Option Nat := fun i => if i ≤ 1000 then some i else none

/-- The recurring series over `capGen` for the cap counterexample. -/
def capRec : RecurringEvent :=
  { uid := some "cap", summary := some "daily", description := none,
    organizer := .absent, gen := capGen,
    occIsDate := fun _ => false, occEnd := fun _ => none,
    occSummary := fun _ => none, occDescription := fun _ => none }

/-- A non-recurring event with `uid`, `summary`, start instant and title. -/
def demoSingle (uid title : String) (t : Nat) : SingleEvent :=
  { uid := some uid, summary := some title, description := none,
    organizer := .absent, startDate := some t, startIsDate := false,
    endDate := none }

/-- A concrete published event instance. -/
def demoEvent : CalEvent := mkSingleEvent demoDir (demoSingle "u1" "Lunch" 3) 3

/-! ### Injectivity of the instant rendering -/

theorem toDigitsGo_lt_ten : ∀ fuel n d, d ∈ toDigitsGo fuel n → d < 10 := by
  intro fuel
  induction fuel with
  | zero => intro n d h; simp [toDigitsGo] at h
  | succ f ih =>
    intro n d h
    by_cases h10 : n < 10
    · simp [toDigitsGo, h10] at h
      omega
    · simp only [toDigitsGo, if_neg h10, List.mem_append, List.mem_singleton] at h
      rcases h with h | h
      · exact ih _ _ h
      · subst h; exact Nat.mod_lt _ (by omega)

theorem ofDigitsList_append (l : List Nat) (d : Nat) :
    ofDigitsList (l ++ [d]) = ofDigitsList l * 10 + d := by
  simp [ofDigitsList, List.foldl_append]

theorem ofDigitsList_toDigitsGo : ∀ fuel n, n ≤ fuel →
    ofDigitsList (toDigitsGo fuel n) = n := by
  intro fuel
  induction fuel with
  | zero =>
    intro n hn
    have : n = 0 := by omega
    subst this
    simp [toDigitsGo, ofDigitsList]
  | succ f ih =>
    intro n hn
    by_cases h10 : n < 10
    · simp [toDigitsGo, h10, ofDigitsList]
    · have hdiv : n / 10 ≤ f := by
        have : n / 10 < n := Nat.div_lt_self (by omega) (by omega)
        omega
      simp only [toDigitsGo, if_neg h10, ofDigitsList_append, ih _ hdiv]
      omega

theorem digitChar_inj_lt_ten :
    ∀ a < 10, ∀ b < 10, Nat.digitChar a = Nat.digitChar b → a = b := by decide

theorem map_digitChar_inj : ∀ l1 l2 : List Nat, (∀ d ∈ l1, d < 10) → (∀ d ∈ l2, d < 10) →
    l1.map Nat.digitChar = l2.map Nat.digitChar → l1 = l2 := by
  intro l1
  induction l1 with
  | nil => intro l2 _ _ h; cases l2 <;> simp_all
  | cons a l ih =>
    intro l2 h1 h2 h
    cases l2 with
    | nil => simp at h
    | cons b l2' =>
      simp only [List.map_cons, List.cons.injEq] at h
      have ha : a = b :=
        digitChar_inj_lt_ten a (h1 a (by simp)) b (h2 b (by simp)) h.1
      have hl : l = l2' :=
        ih l2' (fun d hd => h1 d (by simp [hd])) (fun d hd => h2 d (by simp [hd])) h.2
      rw [ha, hl]

theorem natStr_injective : Function.Injective natStr := by
  intro a b h
  have hdata : (toDigitsGo (a + 1) a).map Nat.digitChar
      = (toDigitsGo (b + 1) b).map Nat.digitChar := congrArg String.data h
  have hd : toDigitsGo (a + 1) a = toDigitsGo (b + 1) b :=
    map_digitChar_inj _ _ (toDigitsGo_lt_ten _ _) (toDigitsGo_lt_ten _ _) hdata
  have := congrArg ofDigitsList hd
  rwa [ofDigitsList_toDigitsGo _ _ (by omega),
    ofDigitsList_toDigitsGo _ _ (by omega)] at this

theorem append_natStr_inj (u : String) {a b : Nat} (h : u ++ natStr a = u ++ natStr b) :
    a = b := by
  apply natStr_injective
  have := congrArg String.data h
  simp only [String.data_append] at this
  have := List.append_cancel_left this
  exact congrArg String.mk this

/-! ### Basic properties of the expansion loop -/

theorem expandGo_length_le (dir : MemberDirectory) (startR endR : Nat)
    (r : RecurringEvent) : ∀ fuel idx, (expandGo dir startR endR r idx fuel).length ≤ fuel := by
  intro fuel
  induction fuel with
  | zero => intro idx; simp [expandGo]
  | succ f ih =>
    intro idx
    simp only [expandGo]
    cases r.gen idx with
    | none => simp
    | some next =>
      by_cases h1 : endR < next
      · simp [h1]
      · by_cases h2 : startR ≤ next
        · simpa [h1, h2] using ih (idx + 1)
        · simp only [if_neg h1, if_neg h2]
          exact le_trans (ih (idx + 1)) (Nat.le_succ f)

theorem expandGo_mem (dir : MemberDirectory) (startR endR : Nat)
    (r : RecurringEvent) : ∀ fuel idx ev, ev ∈ expandGo dir startR endR r idx fuel →
    ∃ t, ev = mkRecurringEvent dir r t ∧
      startR ≤ t ∧ t ≤ endR ∧ ∃ i, idx ≤ i ∧ r.gen i = some t := by
  intro fuel
  induction fuel with
  | zero => intro idx ev h; simp [expandGo] at h
  | succ f ih =>
    intro idx ev h
    simp only [expandGo] at h
    cases hg : r.gen idx with
    | none => simp [hg] at h
    | some next =>
      rw [hg] at h
      by_cases h1 : endR < next
      · simp [h1] at h
      · by_cases h2 : startR ≤ next
        · simp only [if_neg h1, if_pos h2, List.mem_cons] at h
          rcases h with h | h
          · exact ⟨next, h, h2, by omega, idx, le_refl _, hg⟩
          · obtain ⟨t, het, hs, he, i, hi, hgi⟩ := ih (idx + 1) ev h
            exact ⟨t, het, hs, he, i, by omega, hgi⟩
        · simp only [if_neg h1, if_neg h2] at h
          obtain ⟨t, het, hs, he, i, hi, hgi⟩ := ih (idx + 1) ev h
          exact ⟨t, het, hs, he, i, by omega, hgi⟩

/-- Characterization of the loop output when the iterator crosses the
window end (or runs out) after exactly `m` counted instants, all within
fuel: the loop emits precisely the in-window instants of positions
`idx, …, idx + m - 1`, in position order. -/
theorem expandGo_eq_filterMap (dir : MemberDirectory) (startR endR : Nat)
    (r : RecurringEvent) : ∀ m idx fuel, m ≤ fuel →
    (∀ i, i < m → ∃ t, r.gen (idx + i) = some t ∧ t ≤ endR) →
    (m = fuel ∨ r.gen (idx + m) = none ∨ ∃ t, r.gen (idx + m) = some t ∧ endR < t) →
    expandGo dir startR endR r idx fuel
      = (List.range' idx m).filterMap (emitAt dir startR r) := by
  intro m
  induction m with
  | zero =>
    intro idx fuel _ _ hbound
    simp only [List.range', List.filterMap_nil]
    rcases hbound with h | h | ⟨t, hg, ht⟩
    · subst h; rfl
    · cases fuel with
      | zero => rfl
      | succ f =>
        rw [Nat.add_zero] at h
        simp [expandGo, h]
    · cases fuel with
      | zero => rfl
      | succ f =>
        rw [Nat.add_zero] at hg
        simp [expandGo, hg, ht]
  | succ k ih =>
    intro idx fuel hm hlt hbound
    cases fuel with
    | zero => omega
    | succ f =>
      obtain ⟨t0, hg0, hle0⟩ := hlt 0 (by omega)
      rw [Nat.add_zero] at hg0
      have hrec : expandGo dir startR endR r (idx + 1) f
          = (List.range' (idx + 1) k).filterMap (emitAt dir startR r) := by
        apply ih (idx + 1) f (by omega)
        · intro i hi
          obtain ⟨t, hg, ht⟩ := hlt (i + 1) (by omega)
          refine ⟨t, ?_, ht⟩
          rwa [show idx + (i + 1) = idx + 1 + i by omega] at hg
        · rcases hbound with h | h | ⟨t, hg, ht⟩
          · exact Or.inl (by omega)
          · exact Or.inr (Or.inl (by rwa [show idx + (k + 1) = idx + 1 + k by omega] at h))
          · exact Or.inr (Or.inr ⟨t, by rwa [show idx + (k + 1) = idx + 1 + k by omega] at hg, ht⟩)
      rw [List.range'_succ, List.filterMap_cons]
      simp only [expandGo, hg0, if_neg (show ¬ endR < t0 by omega), emitAt]
      by_cases h2 : startR ≤ t0
      · simp [h2, hrec]
      · simp [h2, hrec]

/-- Beyond the crossing point `m`, a monotone iterator that never yields
again after `none` only yields instants past the window end. -/
theorem gen_past_m (endR : Nat) (r : RecurringEvent) (m : Nat)
    (hend : r.gen m = none ∨ ∃ t, r.gen m = some t ∧ endR < t)
    (hmono : ∀ i j ti tj, i < j → r.gen i = some ti → r.gen j = some tj → ti < tj)
    (hstop : ∀ i, r.gen i = none → r.gen (i + 1) = none) :
    ∀ i t, m ≤ i → r.gen i = some t → endR < t := by
  intro i t hmi hg
  rcases hend with hnone | ⟨t0, hg0, ht0⟩
  · have : ∀ j, r.gen (m + j) = none := by
      intro j
      induction j with
      | zero => simpa using hnone
      | succ j ihj => exact hstop _ ihj
    have := this (i - m)
    rw [show m + (i - m) = i by omega] at this
    rw [this] at hg
    exact absurd hg (by simp)
  · rcases Nat.eq_or_lt_of_le hmi with h | h
    · subst h
      rw [hg0] at hg
      have := Option.some.inj hg
      omega
    · exact lt_trans ht0 (hmono m i t0 t h hg0 hg)

/-! ### Claim theorems -/

/-- C1: a completed refresh run that fails leaves the published event set
exactly unchanged; when the previously published set is non-empty the
full-page error screen is not entered, and when it is empty the full-page
error screen is entered, exposing the failure's message and a retry
action. -/
theorem failed_refresh_behavior (s : AppState) (m : String) :
    (s.events ≠ [] → (applyFetch s (.fail m)).events = s.events ∧
        renderErrorScreen (applyFetch s (.fail m)) = none)
    ∧ (s.events = [] → (applyFetch s (.fail m)).events = s.events ∧
        renderErrorScreen (applyFetch s (.fail m)) =
          some { message := m, retry := true }) := by
  constructor
  · intro h
    exact ⟨rfl, by simp [applyFetch, renderErrorScreen, List.isEmpty_iff, h]⟩
  · intro h
    exact ⟨rfl, by simp [applyFetch, renderErrorScreen, List.isEmpty_iff, h]⟩

/-- Witness for C1 at concrete states: a failed run over a non-empty
published set keeps it and shows no error page; over an empty set it
shows the error page with the message and retry. -/
theorem failed_refresh_behavior_witness :
    ((applyFetch ⟨[demoEvent], false, none⟩ (.fail "Worker error: 500")).events
        = [demoEvent]
      ∧ renderErrorScreen (applyFetch ⟨[demoEvent], false, none⟩
          (.fail "Worker error: 500")) = none)
    ∧ renderErrorScreen (applyFetch ⟨[], true, none⟩ (.fail "Worker error: 500"))
        = some { message := "Worker error: 500", retry := true } :=
  ⟨(failed_refresh_behavior ⟨[demoEvent], false, none⟩ "Worker error: 500").1
      (by simp),
   ((failed_refresh_behavior ⟨[], true, none⟩ "Worker error: 500").2 rfl).2⟩

/-- C2: for every recurring series — any iterator stream, any window — the
expansion terminates (the loop variant `MAX_RECURRING_EVENTS - count` is
the fuel of `expandGo`) and emits at most 1000 occurrence records, each of
whose start instants lies within the window (the loop breaks as soon as an
instant exceeds `endR`, and instants before `startR` are skipped). -/
theorem recurring_expansion_cap (dir : MemberDirectory) (startR endR : Nat)
    (r : RecurringEvent) :
    (expandRecurring dir startR endR r).length ≤ MAX_RECURRING_EVENTS
    ∧ ∀ ev ∈ expandRecurring dir startR endR r,
        ∃ t, ev.start = some t ∧ startR ≤ t ∧ t ≤ endR := by
  constructor
  · exact expandGo_length_le dir startR endR r MAX_RECURRING_EVENTS 0
  · intro ev hev
    obtain ⟨t, het, hs, he, _⟩ := expandGo_mem dir startR endR r _ _ ev hev
    exact ⟨t, by rw [het]; rfl, hs, he⟩

/-- Witness for C2 at a concrete series whose instants are 5, 6, 7 and
window `[6, 100]`. -/
theorem recurring_expansion_cap_witness :
    (expandRecurring demoDir 6 100 demoRec).length ≤ MAX_RECURRING_EVENTS
    ∧ ∃ t, (mkRecurringEvent demoDir demoRec 6).start = some t
        ∧ 6 ≤ t ∧ t ≤ 100 :=
  ⟨(recurring_expansion_cap demoDir 6 100 demoRec).1,
   (recurring_expansion_cap demoDir 6 100 demoRec).2
     (mkRecurringEvent demoDir demoRec 6) (by decide)⟩

/-- Pointwise agreement of the emission test with `inWindowB`. -/
theorem emitAt_isSome (dir : MemberDirectory) (startR : Nat)
    (r : RecurringEvent) (i : Nat) :
    (emitAt dir startR r i).isSome = inWindowB r startR i := by
  unfold emitAt inWindowB
  cases r.gen i with
  | none => rfl
  | some t => by_cases h : startR ≤ t <;> simp [h]

/-- Solutions of `emitAt … = some ev`. -/
theorem emitAt_eq_some (dir : MemberDirectory) (startR : Nat)
    (r : RecurringEvent) (i : Nat) (ev : CalEvent) :
    emitAt dir startR r i = some ev ↔
      ∃ t, r.gen i = some t ∧ startR ≤ t ∧ ev = mkRecurringEvent dir r t := by
  unfold emitAt
  cases hg : r.gen i with
  | none => simp
  | some t =>
    show (if startR ≤ t then some (mkRecurringEvent dir r t) else none) = some ev
      ↔ ∃ t', some t = some t' ∧ startR ≤ t' ∧ ev = mkRecurringEvent dir r t'
    by_cases h : startR ≤ t
    · rw [if_pos h]
      constructor
      · intro he
        exact ⟨t, rfl, h, (Option.some.inj he).symm⟩
      · rintro ⟨t', ht', hs', rfl⟩
        rw [Option.some.inj ht']
    · rw [if_neg h]
      constructor
      · intro he
        exact absurd he (by simp)
      · rintro ⟨t', ht', hs', rfl⟩
        rw [← Option.some.inj ht'] at hs'
        exact absurd hs' h

set_option maxRecDepth 100000 in
/-- C3 (counterexample to the claim as stated): the per-series cap counts
the skipped pre-window instants too, so a series with 1000 instants before
`windowStart` and one instant inside the window — N = 1 ≤ 1000 in-window
occurrences (conjuncts one and two) — emits zero records, not one. -/
theorem window_count_counterexample :
    (∀ i t, capRec.gen i = some t → 1000 ≤ t → t ≤ 2000 → i = 1000)
    ∧ capRec.gen 1000 = some 1000
    ∧ expandRecurring demoDir 1000 2000 capRec = [] := by
  refine ⟨?_, by decide, by decide⟩
  intro i t hg h1 h2
  by_cases hi : i ≤ 1000
  · simp [capRec, capGen, hi] at hg
    omega
  · simp [capRec, capGen, hi] at hg

/-- C3 (amended): if the iterator's instants cross `windowEnd` (or run out)
after `m ≤ 1000` counted instants — counted instants include the skipped
pre-window ones — then the expansion emits exactly the N in-window
occurrences of the series (every instant from position `m` on is past the
window end, so N is the in-window count of the first `m` positions), each
emitted record's start lies inside the window, the records are strictly
ordered by start instant, and their identifiers are pairwise distinct. -/
theorem recurring_window_exact (dir : MemberDirectory) (startR endR : Nat)
    (r : RecurringEvent) (m : Nat)
    (hm : m ≤ MAX_RECURRING_EVENTS)
    (hlt : ∀ i, i < m → ∃ t, r.gen i = some t ∧ t ≤ endR)
    (hend : r.gen m = none ∨ ∃ t, r.gen m = some t ∧ endR < t)
    (hmono : ∀ i j ti tj, i < j → r.gen i = some ti → r.gen j = some tj → ti < tj)
    (hstop : ∀ i, r.gen i = none → r.gen (i + 1) = none) :
    (expandRecurring dir startR endR r).length
      = (List.range m).countP (inWindowB r startR)
    ∧ (∀ i t, m ≤ i → r.gen i = some t → endR < t)
    ∧ (∀ ev ∈ expandRecurring dir startR endR r,
        ∃ t, ev.start = some t ∧ startR ≤ t ∧ t ≤ endR)
    ∧ (expandRecurring dir startR endR r).Pairwise
        (fun a b => ∃ ta tb, a.start = some ta ∧ b.start = some tb ∧ ta < tb)
    ∧ ((expandRecurring dir startR endR r).map (fun e => e.id)).Nodup := by
  have hmain : expandRecurring dir startR endR r
      = (List.range' 0 m).filterMap (emitAt dir startR r) := by
    apply expandGo_eq_filterMap dir startR endR r m 0 MAX_RECURRING_EVENTS hm
    · intro i hi
      simpa using hlt i hi
    · right
      simpa using hend
  refine ⟨?_, gen_past_m endR r m hend hmono hstop, ?_, ?_, ?_⟩
  · rw [hmain, List.length_filterMap_eq_countP, ← List.range_eq_range']
    exact List.countP_congr (fun i _ => by rw [emitAt_isSome])
  · intro ev hev
    obtain ⟨t, het, hs, he, _⟩ := expandGo_mem dir startR endR r _ _ ev hev
    exact ⟨t, by rw [het]; rfl, hs, he⟩
  · rw [hmain]
    refine List.Pairwise.filterMap (emitAt dir startR r) ?_
      (List.pairwise_lt_range' 0 m)
    intro i j hij b hb b' hb'
    rw [Option.mem_def] at hb hb'
    obtain ⟨ti, hgi, hsi, rfl⟩ := (emitAt_eq_some dir startR r i b).mp hb
    obtain ⟨tj, hgj, hsj, rfl⟩ := (emitAt_eq_some dir startR r j b').mp hb'
    exact ⟨ti, tj, rfl, rfl, hmono i j ti tj hij hgi hgj⟩
  · rw [hmain, List.map_filterMap]
    refine List.Pairwise.filterMap
      (fun i => (emitAt dir startR r i).map (fun e => e.id))
      ?_ (List.pairwise_lt_range' 0 m)
    intro i j hij b hb b' hb'
    rw [Option.mem_def, Option.map_eq_some'] at hb hb'
    obtain ⟨ev, hev, rfl⟩ := hb
    obtain ⟨ev', hev', rfl⟩ := hb'
    obtain ⟨ti, hgi, hsi, rfl⟩ := (emitAt_eq_some dir startR r i ev).mp hev
    obtain ⟨tj, hgj, hsj, rfl⟩ := (emitAt_eq_some dir startR r j ev').mp hev'
    intro heq
    have hid : some (jsStr r.uid ++ "-" ++ natStr ti)
        = some (jsStr r.uid ++ "-" ++ natStr tj) := heq
    have h1 := append_natStr_inj (jsStr r.uid ++ "-") (Option.some.inj hid)
    have h2 := hmono i j ti tj hij hgi hgj
    omega

/-- Witness for C3 (amended) at the concrete series with instants 5, 6, 7
and window `[6, 100]`: the iterator runs out after `m = 3` counted
instants and exactly the in-window count is emitted. -/
theorem recurring_window_exact_witness :
    (expandRecurring demoDir 6 100 demoRec).length
      = (List.range 3).countP (inWindowB demoRec 6) :=
  (recurring_window_exact demoDir 6 100 demoRec 3 (by decide)
    (fun i hi => ⟨5 + i, by simp [demoRec, demoGen, hi], by omega⟩)
    (Or.inl (by decide))
    (by
      intro i j ti tj hij hgi hgj
      by_cases hi : i < 3
      · by_cases hj : j < 3
        · simp [demoRec, demoGen, hi] at hgi
          simp [demoRec, demoGen, hj] at hgj
          omega
        · simp [demoRec, demoGen, hj] at hgj
      · simp [demoRec, demoGen, hi] at hgi)
    (by
      intro i h
      by_cases hi : i < 3
      · simp [demoRec, demoGen, hi] at h
      · simp [demoRec, demoGen, show ¬ i + 1 < 3 by omega])).1

/-- C4: organizer resolution follows the priority chain with first match
winning — an event carrying an organizer property resolves from the
property (source `"organizer_property"`) for every title, including
prefix-matching ones; an event without the property whose title matches a
member prefix resolves with source `"title_pattern"`; an event matching
neither resolves to the directory's reserved default member. -/
theorem organizer_priority_chain (dir : MemberDirectory)
    (email cn summary : Option String) :
    extractOrganizerInfo dir (.present email cn) summary
      = { name := jsOrS cn (jsOrS (email.map stripMailto) "Family"),
          email := email.map stripMailto,
          source := "organizer_property",
          color := getFamilyMemberColor dir
            (jsOrS cn (jsOrS (email.map stripMailto) "Family")) }
    ∧ (∀ n, findPrefixMatch (familyMemberNames dir) (jsOrS summary "") = some n →
        (extractOrganizerInfo dir .absent summary).source = "title_pattern")
    ∧ (findPrefixMatch (familyMemberNames dir) (jsOrS summary "") = none →
        extractOrganizerInfo dir .absent summary = defaultAttribution dir) := by
  refine ⟨rfl, ?_, ?_⟩
  · intro n hn
    simp [extractOrganizerInfo, hn]
  · intro hn
    simp [extractOrganizerInfo, hn]

/-- Witness for C4: with the property present and the title matching a
member prefix the property wins; without it the prefix resolves; with
neither the default resolves. -/
theorem organizer_priority_chain_witness :
    (extractOrganizerInfo demoDir
        (.present (some "mailto:dad@x.io") (some "Dad")) (some "Mom: lunch")).source
      = "organizer_property"
    ∧ (extractOrganizerInfo demoDir .absent (some "Mom: lunch")).source
        = "title_pattern"
    ∧ extractOrganizerInfo demoDir .absent (some "lunch")
        = defaultAttribution demoDir :=
  ⟨congrArg Attribution.source
    (organizer_priority_chain demoDir (some "mailto:dad@x.io") (some "Dad")
      (some "Mom: lunch")).1,
   (organizer_priority_chain demoDir none none (some "Mom: lunch")).2.1
     "Mom" (by decide),
   (organizer_priority_chain demoDir none none (some "lunch")).2.2 (by decide)⟩

/-- C6 (counterexample to the claim as stated): no sort is applied before
publication — a feed holding two single events with starts 5 and 3 is
published in feed order `[5, 3]`, which is not ordered by start instant. -/
theorem published_not_sorted_counterexample :
    (fetchCalendarEvents demoDir 0 10
        [.single (demoSingle "a1" "Alpha" 5), .single (demoSingle "b1" "Beta" 3)]).filterMap
      (fun e => e.start) = [5, 3]
    ∧ ¬ List.Chain' (fun a b : Nat => a ≤ b)
        ((fetchCalendarEvents demoDir 0 10
          [.single (demoSingle "a1" "Alpha" 5), .single (demoSingle "b1" "Beta" 3)]).filterMap
        (fun e => e.start)) := by
  have h : (fetchCalendarEvents demoDir 0 10
      [.single (demoSingle "a1" "Alpha" 5), .single (demoSingle "b1" "Beta" 3)]).filterMap
      (fun e => e.start) = [5, 3] := by decide
  refine ⟨h, ?_⟩
  rw [h]
  simp [List.chain'_cons]

/-- Sortedness of one series' expansion, for any fuel and start position:
occurrences are emitted in iterator order, which is strictly increasing
for a monotone stream. -/
theorem expandGo_pairwise (dir : MemberDirectory) (startR endR : Nat)
    (r : RecurringEvent)
    (hmono : ∀ i j ti tj, i < j → r.gen i = some ti → r.gen j = some tj → ti < tj) :
    ∀ fuel idx, (expandGo dir startR endR r idx fuel).Pairwise
      (fun a b => ∃ ta tb, a.start = some ta ∧ b.start = some tb ∧ ta < tb) := by
  intro fuel
  induction fuel with
  | zero => intro idx; simp [expandGo]
  | succ f ih =>
    intro idx
    simp only [expandGo]
    cases hg : r.gen idx with
    | none => simp
    | some next =>
      by_cases h1 : endR < next
      · simp [h1]
      · by_cases h2 : startR ≤ next
        · simp only [if_neg h1, if_pos h2]
          refine List.pairwise_cons.mpr ⟨?_, ih (idx + 1)⟩
          intro b hb
          obtain ⟨t, hbt, _, _, i, hi, hgi⟩ :=
            expandGo_mem dir startR endR r f (idx + 1) b hb
          exact ⟨next, t, rfl, by rw [hbt]; rfl,
            hmono idx i next t (by omega) hg hgi⟩
        · simp only [if_neg h1, if_neg h2]
          exact ih (idx + 1)

/-- C6 (amended): the published sequence is the feed-order concatenation of
per-component output after filtering, with no cross-event sort; ordering
by start instant holds within each recurring series' expansion (for a
strictly monotone iterator stream), not across the whole published set. -/
theorem series_output_sorted (dir : MemberDirectory) (startR endR : Nat)
    (r : RecurringEvent)
    (hmono : ∀ i j ti tj, i < j → r.gen i = some ti → r.gen j = some tj → ti < tj) :
    (expandRecurring dir startR endR r).Pairwise
      (fun a b => ∃ ta tb, a.start = some ta ∧ b.start = some tb ∧ ta < tb) :=
  expandGo_pairwise dir startR endR r hmono MAX_RECURRING_EVENTS 0

/-- Witness for C6 (amended) at the concrete monotone series with instants
5, 6, 7. -/
theorem series_output_sorted_witness :
    (expandRecurring demoDir 0 100 demoRec).Pairwise
      (fun a b => ∃ ta tb, a.start = some ta ∧ b.start = some tb ∧ ta < tb) :=
  series_output_sorted demoDir 0 100 demoRec (by
    intro i j ti tj hij hgi hgj
    by_cases hi : i < 3
    · by_cases hj : j < 3
      · simp [demoRec, demoGen, hi] at hgi
        simp [demoRec, demoGen, hj] at hgj
        omega
      · simp [demoRec, demoGen, hj] at hgj
    · simp [demoRec, demoGen, hi] at hgi)

/-- C7 (counterexample to the claim as stated): the component titled
`"Mom:"` has a defined start instant and a non-empty title, yet publishes
no instance — its display title strips to the empty string and the
instance is filtered out. -/
theorem single_title_stripped_counterexample :
    (demoSingle "s1" "Mom:" 4).summary = some "Mom:"
    ∧ "Mom:" ≠ ""
    ∧ (demoSingle "s1" "Mom:" 4).startDate = some 4
    ∧ fetchCalendarEvents demoDir 0 10 [.single (demoSingle "s1" "Mom:" 4)] = [] := by
  exact ⟨rfl, by decide, rfl, by decide⟩

/-- C7 (amended): a non-recurring component with a defined start instant
publishes exactly one instance with matching start, end and all-day flag,
provided its display title is non-empty (a non-empty source title whose
prefix strips to the empty string is filtered out); a component with no
start instant publishes none. -/
theorem single_event_exactly_one (dir : MemberDirectory) (startR endR : Nat)
    (s : SingleEvent) (t : Nat) :
    (s.startDate = some t → (mkSingleEvent dir s t).title ≠ "" →
      fetchCalendarEvents dir startR endR [.single s] = [mkSingleEvent dir s t]
      ∧ (mkSingleEvent dir s t).start = some t
      ∧ (mkSingleEvent dir s t).end_ = s.endDate
      ∧ (mkSingleEvent dir s t).allDay = s.startIsDate)
    ∧ (s.startDate = none →
        fetchCalendarEvents dir startR endR [.single s] = []) := by
  constructor
  · intro hst hti
    have hti' : ¬ displayTitle dir (extractOrganizerInfo dir s.organizer s.summary)
        s.summary = "" := by
      simpa [mkSingleEvent, createCalendarEvent] using hti
    refine ⟨?_, rfl, rfl, rfl⟩
    simp [fetchCalendarEvents, processVEvent, processSingle, hst,
      mkSingleEvent, createCalendarEvent, hti']
  · intro hst
    simp [fetchCalendarEvents, processVEvent, processSingle, hst]

/-- Witness for C7 (amended) at a concrete component with start 3 and
title "Lunch". -/
theorem single_event_exactly_one_witness :
    fetchCalendarEvents demoDir 0 10 [.single (demoSingle "u1" "Lunch" 3)]
      = [mkSingleEvent demoDir (demoSingle "u1" "Lunch" 3) 3]
    ∧ (mkSingleEvent demoDir (demoSingle "u1" "Lunch" 3) 3).start = some 3
    ∧ (mkSingleEvent demoDir (demoSingle "u1" "Lunch" 3) 3).end_
        = (demoSingle "u1" "Lunch" 3).endDate
    ∧ (mkSingleEvent demoDir (demoSingle "u1" "Lunch" 3) 3).allDay
        = (demoSingle "u1" "Lunch" 3).startIsDate :=
  (single_event_exactly_one demoDir 0 10 (demoSingle "u1" "Lunch" 3) 3).1
    rfl (by decide)

/-- Identifier distinctness of one series' expansion, for any fuel and
start position: each emitted identifier embeds the occurrence's instant
through the injective decimal rendering. -/
theorem expandGo_ids_nodup (dir : MemberDirectory) (startR endR : Nat)
    (r : RecurringEvent)
    (hmono : ∀ i j ti tj, i < j → r.gen i = some ti → r.gen j = some tj → ti < tj) :
    ∀ fuel idx, ((expandGo dir startR endR r idx fuel).map (fun e => e.id)).Nodup := by
  intro fuel
  induction fuel with
  | zero => intro idx; simp [expandGo]
  | succ f ih =>
    intro idx
    simp only [expandGo]
    cases hg : r.gen idx with
    | none => simp
    | some next =>
      by_cases h1 : endR < next
      · simp [h1]
      · by_cases h2 : startR ≤ next
        · simp only [if_neg h1, if_pos h2, List.map_cons]
          refine List.nodup_cons.mpr ⟨?_, ih (idx + 1)⟩
          intro hmem
          rw [List.mem_map] at hmem
          obtain ⟨b, hb, hid⟩ := hmem
          obtain ⟨t, hbt, _, _, i, hi, hgi⟩ :=
            expandGo_mem dir startR endR r f (idx + 1) b hb
          rw [hbt] at hid
          have hid' : some (jsStr r.uid ++ "-" ++ natStr t)
              = some (jsStr r.uid ++ "-" ++ natStr next) := hid
          have ht : t = next :=
            append_natStr_inj (jsStr r.uid ++ "-") (Option.some.inj hid')
          have := hmono idx i next t (by omega) hg hgi
          omega
        · simp only [if_neg h1, if_neg h2]
          exact ih (idx + 1)

/-- C9 (counterexample to the claim as stated): two non-recurring
components sharing `uid` publish two instances with the same identifier,
so identifiers are not unique across one published set. -/
theorem duplicate_id_counterexample :
    ((fetchCalendarEvents demoDir 0 10
        [.single (demoSingle "dup" "One" 1), .single (demoSingle "dup" "Two" 2)]).map
      (fun e => e.id)) = [some "dup", some "dup"]
    ∧ ¬ ((fetchCalendarEvents demoDir 0 10
        [.single (demoSingle "dup" "One" 1), .single (demoSingle "dup" "Two" 2)]).map
      (fun e => e.id)).Nodup := by
  exact ⟨by decide, by decide⟩

/-- C9 (amended): identifiers are unique within one recurring series'
expansion — the raw start-instant component disambiguates occurrences —
but a non-recurring identifier is just the component's uid (or summary
fallback), so two components sharing those publish colliding identifiers. -/
theorem series_ids_unique (dir : MemberDirectory) (startR endR : Nat)
    (r : RecurringEvent)
    (hmono : ∀ i j ti tj, i < j → r.gen i = some ti → r.gen j = some tj → ti < tj) :
    ((expandRecurring dir startR endR r).map (fun e => e.id)).Nodup :=
  expandGo_ids_nodup dir startR endR r hmono MAX_RECURRING_EVENTS 0

/-- Witness for C9 (amended) at the concrete monotone series with instants
5, 6, 7. -/
theorem series_ids_unique_witness :
    ((expandRecurring demoDir 0 100 demoRec).map (fun e => e.id)).Nodup :=
  series_ids_unique demoDir 0 100 demoRec (by
    intro i j ti tj hij hgi hgj
    by_cases hi : i < 3
    · by_cases hj : j < 3
      · simp [demoRec, demoGen, hi] at hgi
        simp [demoRec, demoGen, hj] at hgj
        omega
      · simp [demoRec, demoGen, hj] at hgj
    · simp [demoRec, demoGen, hi] at hgi)

/-- JS `x || d` is the identity on `x` when the default is empty. -/
theorem jsOrS_some_empty (x : String) : jsOrS (some x) "" = x := by
  unfold jsOrS
  by_cases h : x = "" <;> simp [h]

/-- A title that matches some `TITLE_PATTERN` alternative is non-empty. -/
theorem findPrefixMatch_title_ne_empty (names : List String) (title n : String)
    (h : findPrefixMatch names title = some n) : title ≠ "" := by
  intro he
  rw [he] at h
  unfold findPrefixMatch at h
  have hp := List.find?_some h
  simp only [isPrefixStr, lowerStr] at hp
  rw [ List.isPrefixOf_iff_prefix] at hp
  have hlen := hp.length_le
  simp [String.data_append] at hlen

/-- C5 (counterexample to the claim as stated): the display title is the
stripped title additionally trimmed of surrounding whitespace, and an
empty source title becomes the placeholder `"untitled"` rather than
staying unchanged — title `"mom: dentist "` yields `"dentist"`, not
`"dentist "`. -/
theorem title_strip_counterexample :
    (mkSingleEvent demoDir (demoSingle "x1" "mom: dentist " 1) 1).title = "dentist"
    ∧ "dentist" ≠ "dentist "
    ∧ (mkSingleEvent demoDir (demoSingle "y1" "" 1) 1).title = "untitled" := by
  exact ⟨by decide, by decide, by decide⟩

/-- C5 (amended): for an event resolved via title prefix, the organizer
name is the matched title text capitalized, and the display title is the
title with the matched prefix (member name, colon, following whitespace)
removed and the result trimmed of surrounding whitespace; an event not
resolved via title prefix keeps its non-empty title unchanged. -/
theorem title_prefix_strip (dir : MemberDirectory) (s : SingleEvent) (t : Nat)
    (title n : String)
    (hsum : s.summary = some title)
    (horg : s.organizer = .absent)
    (hmatch : findPrefixMatch (familyMemberNames dir) title = some n) :
    (extractOrganizerInfo dir s.organizer s.summary).name
        = capitalize (strTake title n.length)
    ∧ (mkSingleEvent dir s t).title
        = jsTrim (String.mk ((title.data.drop (n.length + 1)).dropWhile
            Char.isWhitespace))
    ∧ (∀ (s2 : SingleEvent) (rawTitle : String), s2.summary = some rawTitle →
        rawTitle ≠ "" →
        (extractOrganizerInfo dir s2.organizer s2.summary).source ≠ "title_pattern" →
        (mkSingleEvent dir s2 t).title = rawTitle) := by
  have htne : title ≠ "" := findPrefixMatch_title_ne_empty _ _ _ hmatch
  have hsource : (extractOrganizerInfo dir s.organizer s.summary).source
      = "title_pattern" := by
    rw [horg, hsum]
    simp [extractOrganizerInfo, jsOrS_some_empty, hmatch]
  refine ⟨?_, ?_, ?_⟩
  · rw [horg, hsum]
    simp [extractOrganizerInfo, jsOrS_some_empty, hmatch]
  · simp only [mkSingleEvent, createCalendarEvent]
    simp only [displayTitle, hsum]
    rw [show jsOrS (some title) "untitled" = title by unfold jsOrS; simp [htne]]
    rw [replaceTitlePattern, hmatch]
    rw [if_pos (by rw [← hsum]; exact hsource)]
  · intro s2 rawTitle hs2 hraw hsrc
    simp only [mkSingleEvent, createCalendarEvent, displayTitle, hs2]
    rw [if_neg (by rw [← hs2]; exact hsrc)]
    unfold jsOrS
    simp [hraw]

/-- Witness for C5 (amended): the spec's own example — title
`"mom: dentist"` with configured member `"Mom"` yields organizer name
`"Mom"` and display title `"dentist"`. -/
theorem title_prefix_strip_witness :
    (extractOrganizerInfo demoDir (demoSingle "w1" "mom: dentist" 2).organizer
        (demoSingle "w1" "mom: dentist" 2).summary).name = "Mom"
    ∧ (mkSingleEvent demoDir (demoSingle "w1" "mom: dentist" 2) 2).title
        = "dentist" := by
  have h := title_prefix_strip demoDir (demoSingle "w1" "mom: dentist" 2) 2
    "mom: dentist" "Mom" rfl rfl (by decide)
  exact ⟨by rw [h.1]; decide, by rw [h.2.1]; decide⟩

/-- C8: organizer resolution is total — it returns an attribution for every
organizer datum (a throwing read resolves to the default case), and the
returned color is always the directory lookup of the resolved name,
falling back to the reserved default entry's color when the name has no
configured color. -/
theorem organizer_resolution_total (dir : MemberDirectory)
    (org : OrganizerProp) (summary : Option String) :
    (extractOrganizerInfo dir org summary).color
      = getFamilyMemberColor dir (extractOrganizerInfo dir org summary).name
    ∧ (org = .malformed →
        extractOrganizerInfo dir org summary = defaultAttribution dir)
    ∧ (dir.members.lookup (extractOrganizerInfo dir org summary).name = none →
        (extractOrganizerInfo dir org summary).color = dir.familyColor) := by
  have h1 : (extractOrganizerInfo dir org summary).color
      = getFamilyMemberColor dir (extractOrganizerInfo dir org summary).name := by
    cases org with
    | malformed => rfl
    | present email cn => rfl
    | absent =>
      cases h : findPrefixMatch (familyMemberNames dir) (jsOrS summary "") with
      | none => simp [extractOrganizerInfo, h]; rfl
      | some n => simp [extractOrganizerInfo, h]
  refine ⟨h1, fun h => by subst h; rfl, fun h => ?_⟩
  rw [h1]
  simp [getFamilyMemberColor, h]

/-- Witness for C8: a malformed organizer property resolves to the default
attribution, and a resolved name absent from the directory falls back to
the default entry's color. -/
theorem organizer_resolution_total_witness :
    extractOrganizerInfo demoDir .malformed (some "Mom: x")
      = defaultAttribution demoDir
    ∧ (extractOrganizerInfo demoDir (.present (some "dad@x.io") none) none).color
        = demoDir.familyColor :=
  ⟨(organizer_resolution_total demoDir .malformed (some "Mom: x")).2.1 rfl,
   (organizer_resolution_total demoDir (.present (some "dad@x.io") none)
      none).2.2 (by decide)⟩

/-- The expansion loop output only depends on the iterator stream and the
fields read by `mkRecurringEvent`. -/
theorem expandGo_congr (dir : MemberDirectory) (startR endR : Nat)
    (r1 r2 : RecurringEvent) (hgen : r1.gen = r2.gen)
    (hmk : ∀ t, mkRecurringEvent dir r1 t = mkRecurringEvent dir r2 t) :
    ∀ fuel idx, expandGo dir startR endR r1 idx fuel
      = expandGo dir startR endR r2 idx fuel := by
  intro fuel
  induction fuel with
  | zero => intro idx; rfl
  | succ f ih =>
    intro idx
    simp only [expandGo, ← hgen]
    cases r1.gen idx with
    | none => rfl
    | some next =>
      by_cases h1 : endR < next
      · simp [h1]
      · by_cases h2 : startR ≤ next
        · simp [h1, h2, hmk next, ih (idx + 1)]
        · simp [h1, h2, ih (idx + 1)]

/-- C10 (implicit): every instance emitted from a recurring series draws
its title, description and organizer attribution from the series-level
component; the per-occurrence summary/description overrides are never
read — two series differing only there expand identically — and all
occurrences share the one attribution computed from the series component,
while start, end and all-day flag come from the per-occurrence details. -/
theorem series_fields_from_series (dir : MemberDirectory) (startR endR : Nat)
    (uid summary description : Option String) (org : OrganizerProp)
    (gen : Nat → Option Nat) (isD : Nat → Bool) (endF : Nat → Option Nat)
    (f1 g1 f2 g2 : Nat → Option String) :
    expandRecurring dir startR endR
        ⟨uid, summary, description, org, gen, isD, endF, f1, g1⟩
      = expandRecurring dir startR endR
          ⟨uid, summary, description, org, gen, isD, endF, f2, g2⟩
    ∧ ∀ ev ∈ expandRecurring dir startR endR
          ⟨uid, summary, description, org, gen, isD, endF, f1, g1⟩,
        ev.organizer = extractOrganizerInfo dir org summary
        ∧ ev.title = displayTitle dir (extractOrganizerInfo dir org summary) summary
        ∧ ev.description = jsOrS description "" := by
  constructor
  · exact expandGo_congr dir startR endR
      ⟨uid, summary, description, org, gen, isD, endF, f1, g1⟩
      ⟨uid, summary, description, org, gen, isD, endF, f2, g2⟩
      rfl (fun t => rfl) MAX_RECURRING_EVENTS 0
  · intro ev hev
    obtain ⟨t, het, _, _, _⟩ := expandGo_mem dir startR endR
      ⟨uid, summary, description, org, gen, isD, endF, f1, g1⟩ _ _ ev hev
    subst het
    exact ⟨rfl, rfl, rfl⟩

/-- Witness for C10 at a concrete series: overriding every occurrence's
summary and description does not change the expansion, and the emitted
instance carries the series' organizer, title and description. -/
theorem series_fields_from_series_witness :
    expandRecurring demoDir 0 10
        ⟨some "s", some "T", some "D", .absent, demoGen, fun _ => false,
          fun _ => none, fun _ => some "override", fun _ => some "odesc"⟩
      = expandRecurring demoDir 0 10
          ⟨some "s", some "T", some "D", .absent, demoGen, fun _ => false,
            fun _ => none, fun _ => none, fun _ => none⟩
    ∧ ((mkRecurringEvent demoDir
          ⟨some "s", some "T", some "D", .absent, demoGen, fun _ => false,
            fun _ => none, fun _ => some "override", fun _ => some "odesc"⟩ 5).organizer
          = extractOrganizerInfo demoDir .absent (some "T")
        ∧ (mkRecurringEvent demoDir
            ⟨some "s", some "T", some "D", .absent, demoGen, fun _ => false,
              fun _ => none, fun _ => some "override", fun _ => some "odesc"⟩ 5).title
            = displayTitle demoDir (extractOrganizerInfo demoDir .absent (some "T"))
                (some "T")
        ∧ (mkRecurringEvent demoDir
            ⟨some "s", some "T", some "D", .absent, demoGen, fun _ => false,
              fun _ => none, fun _ => some "override", fun _ => some "odesc"⟩ 5).description
            = jsOrS (some "D") "") :=
  ⟨(series_fields_from_series demoDir 0 10 (some "s") (some "T") (some "D")
      .absent demoGen (fun _ => false) (fun _ => none)
      (fun _ => some "override") (fun _ => some "odesc")
      (fun _ => none) (fun _ => none)).1,
   (series_fields_from_series demoDir 0 10 (some "s") (some "T") (some "D")
      .absent demoGen (fun _ => false) (fun _ => none)
      (fun _ => some "override") (fun _ => some "odesc")
      (fun _ => none) (fun _ => none)).2 _ (by decide)⟩

end HomeCalendar
